import Mathlib

/-!
Shallow embedding of the greedy memory planner
(`src/greedy_memory_planner.cc`, `src/greedy_memory_planner.h`,
`src/memory_planner.h`).

Modelling conventions:
* C `int` values (sizes, times, offsets) are modelled as `Int`.
* The fixed array `requirements_[kMaxBufferCount]` together with the counter
  `buffer_count_` is modelled as the list `requirements` (its length is
  `buffer_count_`); `AddBuffer` appends.
* The node pool `buffers_sorted_by_offset_` with its `next_entry_index`
  chain (head at pool index 0, `-1` terminator, bump cursor
  `next_free_entry_`) is modelled as the Lean list of nodes in chain order:
  walking the chain from pool index 0 is walking the Lean list from its
  head, and the bump allocation plus pointer rewiring of an insertion is
  the corresponding functional list insertion.
* The output array `buffer_offsets_[kMaxBufferCount]` is uninitialised
  memory in the C code; only cells stored by the placement loop hold
  defined values.  It is modelled as an association list of written cells,
  `List (Nat × Int)`, newest write first; reading an unwritten cell gives
  `none` (an indeterminate value in C).
* The `ErrorReporter` sink is modelled by returning the list of formatted
  messages an operation emits.
-/

namespace Tflite

/-- `GreedyMemoryPlanner::BufferRequirements` from the header. -/
structure BufferRequirements where
  size : Int
  first_time_used : Int
  last_time_used : Int
deriving Repr, DecidableEq, Inhabited

/-- `GreedyMemoryPlanner::ListEntry`.  The `next_entry_index` chain is
represented by the order of the Lean list holding the entries, so only the
payload fields remain. -/
structure ListEntry where
  offset : Int
  requirements_index : Nat
deriving Repr, DecidableEq, Inhabited

/-- `GreedyMemoryPlanner::kMaxBufferCount`. -/
def kMaxBufferCount : Nat := 1024

/-- The planner state.  `requirements` models `requirements_[0..buffer_count_)`,
`buffer_offsets` the written cells of `buffer_offsets_`,
`buffers_sorted_by_offset` the offset-ordered chain, and
`need_to_calculate_offsets` the dirty flag. -/
structure GreedyMemoryPlanner where
  requirements : List BufferRequirements := []
  buffer_offsets : List (Nat × Int) := []
  buffers_sorted_by_offset : List ListEntry := []
  need_to_calculate_offsets : Bool := true
deriving Repr, DecidableEq

/-- The state built by the constructor `GreedyMemoryPlanner()`:
no buffers, dirty flag set. -/
def initPlanner : GreedyMemoryPlanner := {}

/-- Reading cell `i` of `buffer_offsets_`: the most recently written value,
or `none` when the cell was never written (indeterminate in C). -/
def readOffsetCell (cells : List (Nat × Int)) (i : Nat) : Option Int :=
  (cells.find? (fun c => c.fst == i)).map (fun c => c.snd)

/-- `requirements_[i]` (indices are in range in every reachable use). -/
def getReq (reqs : List BufferRequirements) (i : Nat) : BufferRequirements :=
  reqs.getD i default

/-- `GreedyMemoryPlanner::DoesEntryOverlapInTime`. -/
def doesEntryOverlapInTime (reqs : List BufferRequirements) (entry : ListEntry)
    (first_time_used last_time_used : Int) : Bool :=
  let er := getReq reqs entry.requirements_index
  if er.first_time_used > last_time_used then false
  else if first_time_used > er.last_time_used then false
  else true

/-- `GreedyMemoryPlanner::NextValidEntry`, walking a suffix of the chain:
the first entry that overlaps the wanted time range, together with the
chain remaining after it (`none` when no such entry exists).  In the C
code the walk starts at `start->next_entry_index`; here the caller passes
the list of entries after `start`. -/
def nextValidEntry (reqs : List BufferRequirements)
    (first_time_used last_time_used : Int) :
    List ListEntry → Option (ListEntry × List ListEntry)
  | [] => none
  | e :: rest =>
    if doesEntryOverlapInTime reqs e first_time_used last_time_used then some (e, rest)
    else nextValidEntry reqs first_time_used last_time_used rest

/-- The gap-scanning loop of `CalculateOffsetsIfNeeded` (the
`while (true)` over `NextValidEntry`), fused with the `NextValidEntry`
walk so the recursion is structural on the remaining chain: entries that
do not overlap the wanted time range are skipped; at an overlapping entry
the gap after `candidate` is measured and either accepted or the candidate
advances.  When the chain is exhausted the buffer goes right after the
last candidate. -/
def scanForGap (reqs : List BufferRequirements)
    (wanted_size first_time_used last_time_used : Int) :
    ListEntry → List ListEntry → Int
  | candidate, [] =>
    candidate.offset + (getReq reqs candidate.requirements_index).size
  | candidate, e :: rest =>
    if doesEntryOverlapInTime reqs e first_time_used last_time_used then
      let gap := e.offset -
        (candidate.offset + (getReq reqs candidate.requirements_index).size)
      if gap ≥ wanted_size then
        candidate.offset + (getReq reqs candidate.requirements_index).size
      else
        scanForGap reqs wanted_size first_time_used last_time_used e rest
    else
      scanForGap reqs wanted_size first_time_used last_time_used candidate rest

/-- The offset chosen for one buffer by the body of the placement loop in
`CalculateOffsetsIfNeeded`: the initial candidate is the head if it
overlaps in time, otherwise the first overlapping entry after it (this is
exactly the first overlapping entry of the whole chain); with no candidate
the offset is `0`, otherwise the gap scan runs. -/
def computeOffset (reqs : List BufferRequirements)
    (wanted_size first_time_used last_time_used : Int)
    (entries : List ListEntry) : Int :=
  match nextValidEntry reqs first_time_used last_time_used entries with
  | none => 0
  | some (candidate, suffix) =>
    scanForGap reqs wanted_size first_time_used last_time_used candidate suffix

/-- The insertion walk of `CalculateOffsetsIfNeeded` past the head: append
at the end of the chain, or insert just before the first entry whose
`offset` is strictly greater than the new offset. -/
def insertTail (offset : Int) (id : Nat) : List ListEntry → List ListEntry
  | [] => [⟨offset, id⟩]
  | e :: rest =>
    if e.offset > offset then ⟨offset, id⟩ :: e :: rest
    else e :: insertTail offset id rest

/-- Insertion into the offset-ordered chain.  The C walk starts at
`first_entry` and only ever compares the successor of the current node, so
the head node is never displaced. -/
def insertEntry (offset : Int) (id : Nat) : List ListEntry → List ListEntry
  | [] => [⟨offset, id⟩]
  | headE :: rest => headE :: insertTail offset id rest

/-- Modelled from the spec: `reverse_sort_in_place.h` is included by
`greedy_memory_planner.cc` but is not among the repository sources
provided.  Spec §4.2 and §9 require `ReverseSortInPlace` to order the
parallel size/id arrays in descending order of size with a stable
tie-break (equal sizes retain original insertion order; the naive sort is
stable by construction).  Insertion step of a stable descending insertion
sort on buffer ids keyed by `requirements_[id].size`. -/
def insertIdDesc (reqs : List BufferRequirements) (i : Nat) : List Nat → List Nat
  | [] => [i]
  | j :: rest =>
    if (getReq reqs i).size ≥ (getReq reqs j).size then i :: j :: rest
    else j :: insertIdDesc reqs i rest

/-- Modelled from the spec (see `insertIdDesc`): the buffer ids sorted in
descending order of size, stably. -/
def sortIdsBySizeDesc (reqs : List BufferRequirements) (ids : List Nat) : List Nat :=
  ids.foldr (insertIdDesc reqs) []

/-- One iteration of the placement loop of `CalculateOffsetsIfNeeded`:
choose the offset for `buffer_id`, record it in `buffer_offsets_`, and
insert the new node into the offset-ordered chain. -/
def placeBuffer (reqs : List BufferRequirements)
    (st : List ListEntry × List (Nat × Int)) (buffer_id : Nat) :
    List ListEntry × List (Nat × Int) :=
  let wanted := getReq reqs buffer_id
  let offset := computeOffset reqs wanted.size wanted.first_time_used
    wanted.last_time_used st.1
  (insertEntry offset buffer_id st.1, (buffer_id, offset) :: st.2)

/-- The layout computation of `CalculateOffsetsIfNeeded` after its early
return: sort ids by descending size, seed the chain with the largest
buffer at offset `0`, then place the remaining buffers in order.  Note
that, as in the C code, no `buffer_offsets_` cell is written for the seed
buffer `buffer_ids_sorted_by_size_[0]`. -/
def computeLayout (reqs : List BufferRequirements) (cells : List (Nat × Int)) :
    List ListEntry × List (Nat × Int) :=
  match sortIdsBySizeDesc reqs (List.range reqs.length) with
  | [] => ([], cells)
  | firstId :: restIds =>
    restIds.foldl (placeBuffer reqs) ([⟨0, firstId⟩], cells)

/-- `GreedyMemoryPlanner::CalculateOffsetsIfNeeded`. -/
def calculateOffsetsIfNeeded (s : GreedyMemoryPlanner) : GreedyMemoryPlanner :=
  if !s.need_to_calculate_offsets || s.requirements.length == 0 then s
  else
    let result := computeLayout s.requirements s.buffer_offsets
    { s with need_to_calculate_offsets := false,
             buffers_sorted_by_offset := result.1,
             buffer_offsets := result.2 }

/-- `GreedyMemoryPlanner::AddBuffer`.  Returns the C return value, the
messages reported to the `ErrorReporter`, and the new state. -/
def addBuffer (s : GreedyMemoryPlanner) (size first_time_used last_time_used : Int) :
    Bool × List String × GreedyMemoryPlanner :=
  if s.requirements.length ≥ kMaxBufferCount then
    (false, ["Too many buffers (max is " ++ toString kMaxBufferCount ++ ")"], s)
  else
    (true, [],
      { s with
        requirements := s.requirements ++ [⟨size, first_time_used, last_time_used⟩],
        need_to_calculate_offsets := true })

/-- Add one requirements record (state part of `addBuffer`). -/
def addBufferReq (s : GreedyMemoryPlanner) (r : BufferRequirements) :
    GreedyMemoryPlanner :=
  (addBuffer s r.size r.first_time_used r.last_time_used).2.2

/-- A fresh planner after a sequence of `AddBuffer` calls. -/
def addAll (batch : List BufferRequirements) : GreedyMemoryPlanner :=
  batch.foldl addBufferReq initPlanner

/-- The walk of `GetMaximumMemorySize` over the offset-ordered chain,
accumulating `max_size`. -/
def walkMaxSize (reqs : List BufferRequirements) :
    List ListEntry → Int → Int
  | [], maxSize => maxSize
  | e :: rest, maxSize =>
    let current := e.offset + (getReq reqs e.requirements_index).size
    walkMaxSize reqs rest (if current > maxSize then current else maxSize)

/-- `GreedyMemoryPlanner::GetMaximumMemorySize`. -/
def getMaximumMemorySize (s : GreedyMemoryPlanner) : Int × GreedyMemoryPlanner :=
  let s := calculateOffsetsIfNeeded s
  if s.requirements.length == 0 then (0, s)
  else (walkMaxSize s.requirements s.buffers_sorted_by_offset 0, s)

/-- `GreedyMemoryPlanner::GetBufferCount`. -/
def getBufferCount (s : GreedyMemoryPlanner) : Int :=
  (s.requirements.length : Int)

/-- `GreedyMemoryPlanner::GetOffsetForBuffer`.  Returns the C return
value, the reported messages, what was stored through the `offset`
out-parameter (`none` when the out-parameter is not written at all;
`some none` when the cell copied into it was never initialised), and the
resulting state.  Note: faithfully to the C code, this operation does
NOT call `calculateOffsetsIfNeeded`. -/
def getOffsetForBuffer (s : GreedyMemoryPlanner) (buffer_index : Int) :
    Bool × List String × Option (Option Int) × GreedyMemoryPlanner :=
  if buffer_index < 0 || buffer_index ≥ (s.requirements.length : Int) then
    (false,
      ["buffer index " ++ toString buffer_index ++ " is outside range 0 to "
        ++ toString (s.requirements.length : Int)],
      none, s)
  else
    (true, [], some (readOffsetCell s.buffer_offsets buffer_index.toNat), s)

/-- `kLineWidth` in `PrintMemoryPlan`. -/
def kLineWidth : Nat := 80

/-- The inner fill of `PrintMemoryPlan`: columns `[lineStart, lineEnd)`
get the buffer character, already-marked columns become an exclamation
mark.  `n` is the index of the first character of the remaining line. -/
def fillCols (ch : Char) (lineStart lineEnd : Nat) : Nat → List Char → List Char
  | _, [] => []
  | n, c :: rest =>
    (if lineStart ≤ n && n < lineEnd then (if c = '.' then ch else '!') else c)
      :: fillCols ch lineStart lineEnd (n + 1) rest

/-- One output line of `PrintMemoryPlan` for time step `t`.  Cells of
`buffer_offsets_` that were never written are indeterminate in C; they
are modelled as `0` here (no theorem below exercises such a read: the
claim settled against this definition has `buffer_count_ == 0`, so the
per-buffer loop body never runs). -/
def lineForTime (reqs : List BufferRequirements) (cells : List (Nat × Int))
    (maxSize : Int) (t : Int) : String :=
  let filled := (List.range reqs.length).foldl (fun line i =>
    let r := getReq reqs i
    if t < r.first_time_used || t > r.last_time_used then line
    else
      let offset := (readOffsetCell cells i).getD 0
      let size := r.size
      let lineStart := (Int.tdiv (offset * (kLineWidth : Int)) maxSize).toNat
      let lineEnd := (Int.tdiv ((offset + size) * (kLineWidth : Int)) maxSize).toNat
      fillCols (Char.ofNat ('0'.toNat + i % 10)) lineStart lineEnd 0 line)
    (List.replicate kLineWidth '.')
  String.mk filled

/-- `GreedyMemoryPlanner::PrintMemoryPlan`: the list of lines reported to
the sink, and the resulting state. -/
def printMemoryPlan (s : GreedyMemoryPlanner) : List String × GreedyMemoryPlanner :=
  let s := calculateOffsetsIfNeeded s
  let maxSize := (List.range s.requirements.length).foldl (fun m i =>
    let r := getReq s.requirements i
    let size := (readOffsetCell s.buffer_offsets i).getD 0 + r.size
    if size > m then size else m) ((kLineWidth : Nat) : Int)
  let maxTime := (List.range s.requirements.length).foldl (fun m i =>
    let r := getReq s.requirements i
    if r.last_time_used > m then r.last_time_used else m) (0 : Int)
  (((List.range (maxTime + 1).toNat).map (fun tn =>
      lineForTime s.requirements s.buffer_offsets maxSize (tn : Int))), s)

/-- The offset the layout assigned to buffer `i`, read off the
offset-ordered chain (the chain holds every placed buffer, including the
seed buffer whose `buffer_offsets_` cell the C code never writes). -/
def entryOffsetOf (entries : List ListEntry) (i : Nat) : Int :=
  ((entries.find? (fun e => e.requirements_index == i)).map (fun e => e.offset)).getD 0

/-- `offset + size` of a placement node, the quantity `GetMaximumMemorySize`
maximises. -/
def contribution (reqs : List BufferRequirements) (e : ListEntry) : Int :=
  e.offset + (getReq reqs e.requirements_index).size

/-- Offset order on placement nodes. -/
def entryLE (a b : ListEntry) : Prop := a.offset ≤ b.offset

instance : DecidableRel entryLE := fun a b => inferInstanceAs (Decidable (a.offset ≤ b.offset))

/-- Invariant of the placement loop: the chain keeps the seed node (the
largest buffer at offset `0`) as its head, stays sorted by offset, and
holds only non-negative offsets. -/
def layoutInv (firstId : Nat) (st : List ListEntry × List (Nat × Int)) : Prop :=
  (∃ t, st.1 = ⟨0, firstId⟩ :: t) ∧
  List.Sorted entryLE st.1 ∧
  ∀ e ∈ st.1, 0 ≤ e.offset

/-! ### Helper lemmas -/

lemma getReq_size_nonneg {reqs : List BufferRequirements}
    (hsz : ∀ r ∈ reqs, 0 ≤ r.size) (i : Nat) : 0 ≤ (getReq reqs i).size := by
  unfold getReq
  rcases h : reqs.getD i default with r
  by_cases hi : i < reqs.length
  · have : reqs.getD i default = reqs.get ⟨i, hi⟩ := List.getD_eq_getElem reqs default hi
    rw [this] at h
    exact h ▸ hsz (reqs.get ⟨i, hi⟩) (List.get_mem reqs i hi)
  · have : reqs.getD i default = default := by
      rw [List.getD_eq_default]
      omega
    rw [this] at h
    simp [← h]
    rfl

lemma calculateOffsets_requirements (s : GreedyMemoryPlanner) :
    (calculateOffsetsIfNeeded s).requirements = s.requirements := by
  unfold calculateOffsetsIfNeeded
  split <;> rfl

lemma calculateOffsets_clean {s : GreedyMemoryPlanner}
    (h : s.need_to_calculate_offsets = false) : calculateOffsetsIfNeeded s = s := by
  simp [calculateOffsetsIfNeeded, h]

lemma calculateOffsets_idem (s : GreedyMemoryPlanner) :
    calculateOffsetsIfNeeded (calculateOffsetsIfNeeded s) = calculateOffsetsIfNeeded s := by
  by_cases h : (!s.need_to_calculate_offsets || s.requirements.length == 0) = true
  · have h1 : calculateOffsetsIfNeeded s = s := by
      unfold calculateOffsetsIfNeeded
      simp [h]
    rw [h1, h1]
  · have h1 : (calculateOffsetsIfNeeded s).need_to_calculate_offsets = false := by
      unfold calculateOffsetsIfNeeded
      simp [h]
    exact calculateOffsets_clean h1

lemma calculateOffsets_of_dirty {s : GreedyMemoryPlanner}
    (hneed : s.need_to_calculate_offsets = true) (hne : s.requirements ≠ []) :
    calculateOffsetsIfNeeded s =
      { s with need_to_calculate_offsets := false,
               buffers_sorted_by_offset := (computeLayout s.requirements s.buffer_offsets).1,
               buffer_offsets := (computeLayout s.requirements s.buffer_offsets).2 } := by
  have hlen : s.requirements.length ≠ 0 := by simpa using hne
  unfold calculateOffsetsIfNeeded
  simp [hneed, hlen]

lemma ite_gt_eq_max (a b : Int) : (if b > a then b else a) = max a b := by
  rcases le_or_lt b a with h | h
  · simp [max_eq_left h]
    omega
  · simp [h, max_eq_right (le_of_lt h)]

lemma walkMaxSize_eq_foldr (reqs : List BufferRequirements) :
    ∀ (l : List ListEntry) (acc : Int),
      walkMaxSize reqs l acc = l.foldr (fun e m => max (contribution reqs e) m) acc := by
  intro l
  induction l with
  | nil => intro acc; rfl
  | cons e rest ih =>
    intro acc
    have hstep : walkMaxSize reqs (e :: rest) acc =
        walkMaxSize reqs rest (max acc (contribution reqs e)) := by
      simp only [walkMaxSize, contribution, ite_gt_eq_max]
    rw [hstep, ih]
    have haux : ∀ (l' : List ListEntry) (a b : Int),
        l'.foldr (fun e m => max (contribution reqs e) m) (max a b) =
          max b (l'.foldr (fun e m => max (contribution reqs e) m) a) := by
      intro l'
      induction l' with
      | nil => intro a b; exact max_comm a b
      | cons x xs ihx =>
        intro a b
        simp only [List.foldr_cons, ihx]
        exact max_left_comm _ _ _
    simpa using haux rest acc (contribution reqs e)

lemma acc_le_walkMaxSize (reqs : List BufferRequirements) :
    ∀ (l : List ListEntry) (acc : Int), acc ≤ walkMaxSize reqs l acc := by
  intro l
  induction l with
  | nil => intro acc; exact le_refl acc
  | cons e rest ih =>
    intro acc
    have h1 : acc ≤ (if e.offset + (getReq reqs e.requirements_index).size > acc
        then e.offset + (getReq reqs e.requirements_index).size else acc) := by
      split <;> omega
    exact le_trans h1 (ih _)

lemma insertIdDesc_perm (reqs : List BufferRequirements) (i : Nat) :
    ∀ l : List Nat, List.Perm (insertIdDesc reqs i l) (i :: l) := by
  intro l
  induction l with
  | nil => exact List.Perm.refl _
  | cons j rest ih =>
    by_cases h : (getReq reqs i).size ≥ (getReq reqs j).size
    · simp [insertIdDesc, h]
    · have h1 : insertIdDesc reqs i (j :: rest) = j :: insertIdDesc reqs i rest := by
        simp [insertIdDesc, h]
      rw [h1]
      exact (ih.cons j).trans (List.Perm.swap i j rest)

lemma sortIdsBySizeDesc_perm (reqs : List BufferRequirements) :
    ∀ ids : List Nat, List.Perm (sortIdsBySizeDesc reqs ids) ids := by
  intro ids
  induction ids with
  | nil => exact List.Perm.refl _
  | cons x xs ih =>
    have h1 : sortIdsBySizeDesc reqs (x :: xs) =
        insertIdDesc reqs x (sortIdsBySizeDesc reqs xs) := rfl
    rw [h1]
    exact (insertIdDesc_perm reqs x _).trans (ih.cons x)

lemma mem_insertIdDesc {reqs : List BufferRequirements} {i x : Nat} {l : List Nat}
    (h : x ∈ insertIdDesc reqs i l) : x = i ∨ x ∈ l := by
  have := (insertIdDesc_perm reqs i l).mem_iff.mp h
  simpa using this

lemma insertIdDesc_sorted (reqs : List BufferRequirements) (i : Nat) :
    ∀ l : List Nat,
      List.Sorted (fun a b => (getReq reqs b).size ≤ (getReq reqs a).size) l →
      List.Sorted (fun a b => (getReq reqs b).size ≤ (getReq reqs a).size)
        (insertIdDesc reqs i l) := by
  intro l
  induction l with
  | nil => intro _; simp [insertIdDesc]
  | cons j rest ih =>
    intro hs
    rw [List.sorted_cons] at hs
    obtain ⟨hj, hrest⟩ := hs
    by_cases h : (getReq reqs i).size ≥ (getReq reqs j).size
    · have h1 : insertIdDesc reqs i (j :: rest) = i :: j :: rest := by
        simp [insertIdDesc, h]
      rw [h1, List.sorted_cons]
      constructor
      · intro b hb
        rcases List.mem_cons.mp hb with rfl | hb2
        · exact h
        · exact le_trans (hj b hb2) h
      · rw [List.sorted_cons]
        exact ⟨hj, hrest⟩
    · have h1 : insertIdDesc reqs i (j :: rest) = j :: insertIdDesc reqs i rest := by
        simp [insertIdDesc, h]
      rw [h1, List.sorted_cons]
      constructor
      · intro b hb
        rcases mem_insertIdDesc hb with rfl | hb2
        · omega
        · exact hj b hb2
      · exact ih hrest

lemma sortIdsBySizeDesc_sorted (reqs : List BufferRequirements) :
    ∀ ids : List Nat,
      List.Sorted (fun a b => (getReq reqs b).size ≤ (getReq reqs a).size)
        (sortIdsBySizeDesc reqs ids) := by
  intro ids
  induction ids with
  | nil => simp [sortIdsBySizeDesc]
  | cons x xs ih => exact insertIdDesc_sorted reqs x _ ih

lemma insertTail_perm (offset : Int) (id : Nat) :
    ∀ l : List ListEntry, List.Perm (insertTail offset id l) ((⟨offset, id⟩ : ListEntry) :: l) := by
  intro l
  induction l with
  | nil => exact List.Perm.refl _
  | cons e rest ih =>
    by_cases h : e.offset > offset
    · simp [insertTail, h]
    · have h1 : insertTail offset id (e :: rest) = e :: insertTail offset id rest := by
        simp [insertTail, h]
      rw [h1]
      exact (ih.cons e).trans (List.Perm.swap _ e rest)

lemma insertEntry_perm (offset : Int) (id : Nat) :
    ∀ l : List ListEntry, List.Perm (insertEntry offset id l) ((⟨offset, id⟩ : ListEntry) :: l) := by
  intro l
  cases l with
  | nil => exact List.Perm.refl _
  | cons h t =>
    have h1 : insertEntry offset id (h :: t) = h :: insertTail offset id t := rfl
    rw [h1]
    exact ((insertTail_perm offset id t).cons h).trans (List.Perm.swap _ h t)

lemma mem_insertTail {offset : Int} {id : Nat} {x : ListEntry} {l : List ListEntry}
    (h : x ∈ insertTail offset id l) : x = ⟨offset, id⟩ ∨ x ∈ l := by
  have := (insertTail_perm offset id l).mem_iff.mp h
  simpa using this

lemma insertTail_sorted (offset : Int) (id : Nat) :
    ∀ l : List ListEntry, List.Sorted entryLE l →
      List.Sorted entryLE (insertTail offset id l) := by
  intro l
  induction l with
  | nil => intro _; simp [insertTail]
  | cons e rest ih =>
    intro hs
    rw [List.sorted_cons] at hs
    obtain ⟨he, hrest⟩ := hs
    by_cases h : e.offset > offset
    · have h1 : insertTail offset id (e :: rest) = ⟨offset, id⟩ :: e :: rest := by
        simp [insertTail, h]
      rw [h1, List.sorted_cons]
      constructor
      · intro b hb
        rcases List.mem_cons.mp hb with rfl | hb2
        · exact le_of_lt h
        · exact le_trans (le_of_lt h) (he b hb2)
      · rw [List.sorted_cons]
        exact ⟨he, hrest⟩
    · have h1 : insertTail offset id (e :: rest) = e :: insertTail offset id rest := by
        simp [insertTail, h]
      rw [h1, List.sorted_cons]
      constructor
      · intro b hb
        rcases mem_insertTail hb with rfl | hb2
        · show e.offset ≤ offset
          omega
        · exact he b hb2
      · exact ih hrest

lemma insertEntry_cons_sorted {offset : Int} {id : Nat} {h : ListEntry} {t : List ListEntry}
    (hs : List.Sorted entryLE (h :: t)) (hh : h.offset ≤ offset) :
    List.Sorted entryLE (insertEntry offset id (h :: t)) := by
  rw [List.sorted_cons] at hs
  obtain ⟨hhd, ht⟩ := hs
  have h1 : insertEntry offset id (h :: t) = h :: insertTail offset id t := rfl
  rw [h1, List.sorted_cons]
  constructor
  · intro b hb
    rcases mem_insertTail hb with rfl | hb2
    · exact hh
    · exact hhd b hb2
  · exact insertTail_sorted offset id t ht

lemma contribution_le_walkMaxSize (reqs : List BufferRequirements) :
    ∀ (l : List ListEntry) (acc : Int) (e : ListEntry), e ∈ l →
      contribution reqs e ≤ walkMaxSize reqs l acc := by
  intro l
  induction l with
  | nil => intro acc e h; cases h
  | cons x rest ih =>
    intro acc e h
    rcases List.mem_cons.mp h with rfl | hmem
    · have h1 : contribution reqs e ≤ (if contribution reqs e > acc
          then contribution reqs e else acc) := by
        split <;> omega
      exact le_trans h1 (by simpa [contribution] using acc_le_walkMaxSize reqs rest _)
    · simpa [walkMaxSize, contribution] using ih _ e hmem

lemma scanForGap_result (reqs : List BufferRequirements)
    (wanted_size first last : Int) :
    ∀ (suffix : List ListEntry) (cand : ListEntry),
      ∃ c, (c = cand ∨ c ∈ suffix) ∧
        scanForGap reqs wanted_size first last cand suffix =
          c.offset + (getReq reqs c.requirements_index).size := by
  intro suffix
  induction suffix with
  | nil => intro cand; exact ⟨cand, Or.inl rfl, rfl⟩
  | cons e rest ih =>
    intro cand
    by_cases hov : doesEntryOverlapInTime reqs e first last = true
    · by_cases hgap : e.offset -
          (cand.offset + (getReq reqs cand.requirements_index).size) ≥ wanted_size
      · refine ⟨cand, Or.inl rfl, ?_⟩
        simp [scanForGap, hov, hgap]
      · obtain ⟨c, hc, heq⟩ := ih e
        refine ⟨c, ?_, ?_⟩
        · rcases hc with rfl | hc2
          · exact Or.inr (List.mem_cons_self _ _)
          · exact Or.inr (List.mem_cons_of_mem _ hc2)
        · rw [← heq]
          simp [scanForGap, hov, hgap]
    · obtain ⟨c, hc, heq⟩ := ih cand
      refine ⟨c, ?_, ?_⟩
      · rcases hc with rfl | hc2
        · exact Or.inl rfl
        · exact Or.inr (List.mem_cons_of_mem _ hc2)
      · rw [← heq]
        simp [scanForGap, hov]

lemma nextValidEntry_mem (reqs : List BufferRequirements) (first last : Int) :
    ∀ (xs : List ListEntry) (e : ListEntry) (rest : List ListEntry),
      nextValidEntry reqs first last xs = some (e, rest) →
      e ∈ xs ∧ ∀ x ∈ rest, x ∈ xs := by
  intro xs
  induction xs with
  | nil => intro e rest h; simp [nextValidEntry] at h
  | cons y ys ih =>
    intro e rest h
    by_cases hov : doesEntryOverlapInTime reqs y first last = true
    · simp [nextValidEntry, hov] at h
      obtain ⟨rfl, rfl⟩ := h
      exact ⟨List.mem_cons_self _ _, fun x hx => List.mem_cons_of_mem _ hx⟩
    · simp [nextValidEntry, hov] at h
      obtain ⟨h1, h2⟩ := ih e rest h
      exact ⟨List.mem_cons_of_mem _ h1, fun x hx => List.mem_cons_of_mem _ (h2 x hx)⟩

lemma computeOffset_nonneg (reqs : List BufferRequirements)
    (hsz : ∀ r ∈ reqs, 0 ≤ r.size) (wanted_size first last : Int)
    (entries : List ListEntry) (hoff : ∀ e ∈ entries, 0 ≤ e.offset) :
    0 ≤ computeOffset reqs wanted_size first last entries := by
  unfold computeOffset
  rcases hnv : nextValidEntry reqs first last entries with _ | ⟨cand, suffix⟩
  · simp
  · obtain ⟨hcand, hsuf⟩ := nextValidEntry_mem reqs first last entries cand suffix hnv
    obtain ⟨c, hc, heq⟩ := scanForGap_result reqs wanted_size first last suffix cand
    show 0 ≤ scanForGap reqs wanted_size first last cand suffix
    rw [heq]
    have hcmem : c ∈ entries := by
      rcases hc with rfl | hc2
      · exact hcand
      · exact hsuf c hc2
    have := hoff c hcmem
    have := getReq_size_nonneg hsz c.requirements_index
    omega

lemma foldl_preserve {α β : Type} {P : β → Prop} {f : β → α → β}
    (hf : ∀ b a, P b → P (f b a)) :
    ∀ (l : List α) (b : β), P b → P (l.foldl f b) := by
  intro l
  induction l with
  | nil => intro b hb; exact hb
  | cons a rest ih => intro b hb; exact ih (f b a) (hf b a hb)

lemma placeBuffer_inv (reqs : List BufferRequirements)
    (hsz : ∀ r ∈ reqs, 0 ≤ r.size) (firstId : Nat)
    (st : List ListEntry × List (Nat × Int)) (id : Nat)
    (hinv : layoutInv firstId st) : layoutInv firstId (placeBuffer reqs st id) := by
  obtain ⟨⟨t, hst⟩, hsort, hoff⟩ := hinv
  have hnn : 0 ≤ computeOffset reqs (getReq reqs id).size
      (getReq reqs id).first_time_used (getReq reqs id).last_time_used st.1 :=
    computeOffset_nonneg reqs hsz _ _ _ st.1 hoff
  have hfst : (placeBuffer reqs st id).1 =
      insertEntry (computeOffset reqs (getReq reqs id).size
        (getReq reqs id).first_time_used (getReq reqs id).last_time_used st.1) id st.1 := rfl
  refine ⟨?_, ?_, ?_⟩
  · refine ⟨insertTail (computeOffset reqs (getReq reqs id).size
      (getReq reqs id).first_time_used (getReq reqs id).last_time_used st.1) id t, ?_⟩
    rw [hfst, hst]
    rfl
  · rw [hfst, hst]
    rw [hst] at hsort
    refine insertEntry_cons_sorted hsort ?_
    show (0 : Int) ≤ _
    rw [← hst]
    exact hnn
  · intro e he
    rw [hfst] at he
    have hmem := (insertEntry_perm _ id st.1).mem_iff.mp he
    rcases List.mem_cons.mp hmem with rfl | hmem2
    · exact hnn
    · exact hoff e hmem2

lemma computeLayout_inv (reqs : List BufferRequirements)
    (cells : List (Nat × Int)) (firstId : Nat) (restIds : List Nat)
    (hsort : sortIdsBySizeDesc reqs (List.range reqs.length) = firstId :: restIds)
    (hsz : ∀ r ∈ reqs, 0 ≤ r.size) :
    layoutInv firstId (computeLayout reqs cells) := by
  unfold computeLayout
  rw [hsort]
  refine foldl_preserve (fun st id hinv => placeBuffer_inv reqs hsz firstId st id hinv)
    restIds _ ?_
  refine ⟨⟨[], rfl⟩, ?_, ?_⟩
  · simp
  · intro e he
    simp at he
    simp [he]

lemma placeLoop_ids_perm (reqs : List BufferRequirements) :
    ∀ (ids : List Nat) (st : List ListEntry × List (Nat × Int)),
      List.Perm ((ids.foldl (placeBuffer reqs) st).1.map ListEntry.requirements_index)
        (ids ++ st.1.map ListEntry.requirements_index) := by
  intro ids
  induction ids with
  | nil => intro st; exact List.Perm.refl _
  | cons id rest ih =>
    intro st
    have h0 : (id :: rest).foldl (placeBuffer reqs) st =
        rest.foldl (placeBuffer reqs) (placeBuffer reqs st id) := rfl
    rw [h0]
    have h1 := ih (placeBuffer reqs st id)
    have h2 : List.Perm ((placeBuffer reqs st id).1.map ListEntry.requirements_index)
        (id :: st.1.map ListEntry.requirements_index) := by
      have := (insertEntry_perm (computeOffset reqs (getReq reqs id).size
        (getReq reqs id).first_time_used (getReq reqs id).last_time_used st.1) id
        st.1).map ListEntry.requirements_index
      simpa [placeBuffer] using this
    exact (h1.trans (List.Perm.append_left rest h2)).trans List.perm_middle

lemma computeLayout_ids_perm (reqs : List BufferRequirements)
    (cells : List (Nat × Int)) (hne : reqs ≠ []) :
    List.Perm ((computeLayout reqs cells).1.map ListEntry.requirements_index)
      (List.range reqs.length) := by
  rcases hs : sortIdsBySizeDesc reqs (List.range reqs.length) with _ | ⟨firstId, restIds⟩
  · exfalso
    have hp := sortIdsBySizeDesc_perm reqs (List.range reqs.length)
    rw [hs] at hp
    have := hp.length_eq
    simp at this
    exact hne (List.eq_nil_of_length_eq_zero this.symm)
  · unfold computeLayout
    rw [hs]
    have h1 := placeLoop_ids_perm reqs restIds ([⟨0, firstId⟩], cells)
    have h2 : List.Perm (restIds ++ [firstId]) (firstId :: restIds) := by
      have hm := @List.perm_middle Nat firstId restIds []
      simp only [List.append_nil] at hm
      exact hm
    have hp := sortIdsBySizeDesc_perm reqs (List.range reqs.length)
    rw [hs] at hp
    refine (h1.trans ?_).trans hp
    simp only [List.map_cons, List.map_nil]
    exact h2

lemma find?_ridx_eq :
    ∀ (L : List ListEntry), (L.map ListEntry.requirements_index).Nodup →
      ∀ e ∈ L, L.find? (fun x => x.requirements_index == e.requirements_index) = some e := by
  intro L
  induction L with
  | nil => intro _ e he; cases he
  | cons h t ih =>
    intro hnd e he
    simp only [List.map_cons, List.nodup_cons] at hnd
    obtain ⟨hnotin, hndt⟩ := hnd
    by_cases hh : h.requirements_index = e.requirements_index
    · have hfind : (h :: t).find? (fun x => x.requirements_index == e.requirements_index)
          = some h := by
        simp [List.find?, hh]
      rcases List.mem_cons.mp he with rfl | het
      · exact hfind
      · exfalso
        apply hnotin
        rw [hh]
        exact List.mem_map_of_mem ListEntry.requirements_index het
    · have hbeq : (h.requirements_index == e.requirements_index) = false := by
        simpa using hh
      have hfind : (h :: t).find? (fun x => x.requirements_index == e.requirements_index)
          = t.find? (fun x => x.requirements_index == e.requirements_index) := by
        simp [List.find?, hbeq]
      rw [hfind]
      rcases List.mem_cons.mp he with rfl | het
      · exact absurd rfl hh
      · exact ih hndt e het

lemma entryOffsetOf_eq {L : List ListEntry}
    (hnd : (L.map ListEntry.requirements_index).Nodup) {e : ListEntry} (he : e ∈ L) :
    entryOffsetOf L e.requirements_index = e.offset := by
  unfold entryOffsetOf
  rw [find?_ridx_eq L hnd e he]
  rfl

lemma addAll_foldl :
    ∀ (batch : List BufferRequirements) (s : GreedyMemoryPlanner),
      s.need_to_calculate_offsets = true →
      s.requirements.length + batch.length ≤ kMaxBufferCount →
      batch.foldl addBufferReq s =
        { requirements := s.requirements ++ batch,
          buffer_offsets := s.buffer_offsets,
          buffers_sorted_by_offset := s.buffers_sorted_by_offset,
          need_to_calculate_offsets := true } := by
  intro batch
  induction batch with
  | nil =>
    intro s hneed _
    rcases s with ⟨a, b, c, d⟩
    simp at hneed
    simp [hneed]
  | cons r rest ih =>
    intro s hneed hlen
    have hok : ¬ (s.requirements.length ≥ kMaxBufferCount) := by
      simp only [List.length_cons] at hlen
      omega
    have hstep : addBufferReq s r =
        { s with requirements := s.requirements ++ [⟨r.size, r.first_time_used, r.last_time_used⟩],
                 need_to_calculate_offsets := true } := by
      simp [addBufferReq, addBuffer, hok]
    have hr : (⟨r.size, r.first_time_used, r.last_time_used⟩ : BufferRequirements) = r := rfl
    rw [hr] at hstep
    have h0 : (r :: rest).foldl addBufferReq s = rest.foldl addBufferReq (addBufferReq s r) := rfl
    rw [h0, hstep]
    rw [ih _ rfl (by simp only [List.length_append, List.length_cons, List.length_nil] at hlen ⊢; omega)]
    simp

lemma addAll_eq (batch : List BufferRequirements) (hlen : batch.length ≤ kMaxBufferCount) :
    addAll batch =
      { requirements := batch, buffer_offsets := [],
        buffers_sorted_by_offset := [], need_to_calculate_offsets := true } := by
  unfold addAll
  rw [addAll_foldl batch initPlanner rfl (by simpa [initPlanner] using hlen)]
  simp [initPlanner]

lemma sortIds_head_max (reqs : List BufferRequirements) {firstId : Nat} {restIds : List Nat}
    (hs : sortIdsBySizeDesc reqs (List.range reqs.length) = firstId :: restIds) :
    ∀ j ∈ List.range reqs.length, (getReq reqs j).size ≤ (getReq reqs firstId).size := by
  intro j hj
  have hp := sortIdsBySizeDesc_perm reqs (List.range reqs.length)
  rw [hs] at hp
  have hjmem : j ∈ firstId :: restIds := hp.mem_iff.mpr hj
  have hsorted := sortIdsBySizeDesc_sorted reqs (List.range reqs.length)
  rw [hs, List.sorted_cons] at hsorted
  rcases List.mem_cons.mp hjmem with rfl | hjr
  · exact le_refl _
  · exact hsorted.1 j hjr

lemma getMax_snd (s : GreedyMemoryPlanner) :
    (getMaximumMemorySize s).2 = calculateOffsetsIfNeeded s := by
  by_cases h : ((calculateOffsetsIfNeeded s).requirements.length == 0) = true
  · simp [getMaximumMemorySize, h]
  · simp [getMaximumMemorySize, h]

lemma getMax_fst (s : GreedyMemoryPlanner) :
    (getMaximumMemorySize s).1 =
      if (calculateOffsetsIfNeeded s).requirements.length == 0 then (0 : Int)
      else walkMaxSize (calculateOffsetsIfNeeded s).requirements
        (calculateOffsetsIfNeeded s).buffers_sorted_by_offset 0 := by
  by_cases h : ((calculateOffsetsIfNeeded s).requirements.length == 0) = true
  · simp [getMaximumMemorySize, h]
  · simp [getMaximumMemorySize, h]

lemma placeLoop_head (reqs : List BufferRequirements) :
    ∀ (ids : List Nat) (st : List ListEntry × List (Nat × Int)) (seed : ListEntry)
      (t : List ListEntry), st.1 = seed :: t →
      ∃ t2, (ids.foldl (placeBuffer reqs) st).1 = seed :: t2 := by
  intro ids
  induction ids with
  | nil => intro st seed t h; exact ⟨t, h⟩
  | cons id rest ih =>
    intro st seed t h
    have hfst : (placeBuffer reqs st id).1 =
        insertEntry (computeOffset reqs (getReq reqs id).size
          (getReq reqs id).first_time_used (getReq reqs id).last_time_used st.1) id st.1 := rfl
    have hu : (placeBuffer reqs st id).1 =
        seed :: insertTail (computeOffset reqs (getReq reqs id).size
          (getReq reqs id).first_time_used (getReq reqs id).last_time_used st.1) id t := by
      rw [hfst, h]
      rfl
    exact ih (placeBuffer reqs st id) seed _ hu

lemma computeLayout_head (reqs : List BufferRequirements)
    (cells : List (Nat × Int)) {firstId : Nat} {restIds : List Nat}
    (hs : sortIdsBySizeDesc reqs (List.range reqs.length) = firstId :: restIds) :
    ∃ t, (computeLayout reqs cells).1 = (⟨0, firstId⟩ : ListEntry) :: t := by
  unfold computeLayout
  rw [hs]
  exact placeLoop_head reqs restIds ([⟨0, firstId⟩], cells) ⟨0, firstId⟩ [] rfl

lemma sortIds_ne_nil {reqs : List BufferRequirements} (hne : reqs ≠ []) :
    sortIdsBySizeDesc reqs (List.range reqs.length) ≠ [] := by
  intro h
  have hp := sortIdsBySizeDesc_perm reqs (List.range reqs.length)
  rw [h] at hp
  have := hp.length_eq
  simp at this
  exact hne (List.eq_nil_of_length_eq_zero this.symm)

/-! ### Claims -/

/-- C2 (code bug): on a fresh planner, after AddBuffer(size=100, first=0,
last=5), GetMaximumMemorySize() is 100, but GetOffsetForBuffer(0) hands
back the content of a never-written cell (`some none`) both before and
after a layout pass: GetOffsetForBuffer triggers no layout, and the
layout pass never records an offset for the seed (largest) buffer, so the
claimed result 0 is never produced. -/
theorem getOffsetForBuffer_seed_unwritten :
    (getMaximumMemorySize ((addBuffer initPlanner 100 0 5).2.2)).1 = 100 ∧
    getOffsetForBuffer ((addBuffer initPlanner 100 0 5).2.2) 0 =
      (true, [], some none, (addBuffer initPlanner 100 0 5).2.2) ∧
    getOffsetForBuffer ((getMaximumMemorySize ((addBuffer initPlanner 100 0 5).2.2)).2) 0 =
      (true, [], some none,
        (getMaximumMemorySize ((addBuffer initPlanner 100 0 5).2.2)).2) := by
  decide

/-- C3 (code bug): with the planner dirty after two adds,
GetOffsetForBuffer(0) performs no layout pass (the state comes back
unchanged, still dirty) and returns the content of an unset cell, even
though a layout pass would define offset 0 for buffer 0. -/
theorem getOffsetForBuffer_no_relayout :
    (addAll [⟨50, 0, 1⟩, ⟨80, 2, 3⟩]).need_to_calculate_offsets = true ∧
    getOffsetForBuffer (addAll [⟨50, 0, 1⟩, ⟨80, 2, 3⟩]) 0 =
      (true, [], some none, addAll [⟨50, 0, 1⟩, ⟨80, 2, 3⟩]) ∧
    readOffsetCell
      (calculateOffsetsIfNeeded (addAll [⟨50, 0, 1⟩, ⟨80, 2, 3⟩])).buffer_offsets 0 =
      some 0 := by
  decide

/-- C5: AddBuffer fails exactly when the count has reached the capacity
1024, reporting a diagnostic naming the limit and leaving the state
unchanged; below capacity it appends the record, sets the dirty flag and
returns true. -/
theorem addBuffer_capacity_spec (s : GreedyMemoryPlanner) (size first last : Int) :
    (s.requirements.length = kMaxBufferCount →
      addBuffer s size first last =
        (false, ["Too many buffers (max is 1024)"], s)) ∧
    (s.requirements.length < kMaxBufferCount →
      addBuffer s size first last =
        (true, [],
          { s with requirements := s.requirements ++ [⟨size, first, last⟩],
                   need_to_calculate_offsets := true })) := by
  constructor
  · intro h
    have hge : s.requirements.length ≥ kMaxBufferCount := le_of_eq h.symm
    simp only [addBuffer, hge, if_pos]
    rfl
  · intro h
    have hlt : ¬ (s.requirements.length ≥ kMaxBufferCount) := by omega
    simp [addBuffer, hlt]

/-- C5 witness: the refusal branch at a planner holding 1024 records, and
the append branch at the fresh planner. -/
theorem addBuffer_capacity_spec_witness :
    (({ requirements := List.replicate 1024 ⟨1, 0, 0⟩ } : GreedyMemoryPlanner).requirements.length
        = kMaxBufferCount ∧
      addBuffer { requirements := List.replicate 1024 ⟨1, 0, 0⟩ } 7 0 0 =
        (false, ["Too many buffers (max is 1024)"],
          { requirements := List.replicate 1024 ⟨1, 0, 0⟩ })) ∧
    (initPlanner.requirements.length < kMaxBufferCount ∧
      addBuffer initPlanner 7 0 0 =
        (true, [],
          { initPlanner with requirements := initPlanner.requirements ++ [⟨7, 0, 0⟩],
                             need_to_calculate_offsets := true })) :=
  ⟨⟨by rw [show ({ requirements := List.replicate 1024 ⟨1, 0, 0⟩ } : GreedyMemoryPlanner).requirements.length
        = (List.replicate 1024 (⟨1, 0, 0⟩ : BufferRequirements)).length from rfl,
      List.length_replicate]; rfl,
    (addBuffer_capacity_spec _ 7 0 0).1
      (by rw [show ({ requirements := List.replicate 1024 ⟨1, 0, 0⟩ } : GreedyMemoryPlanner).requirements.length
            = (List.replicate 1024 (⟨1, 0, 0⟩ : BufferRequirements)).length from rfl,
          List.length_replicate]; rfl)⟩,
   ⟨by decide,
    (addBuffer_capacity_spec initPlanner 7 0 0).2 (by decide)⟩⟩

/-- C6: GetOffsetForBuffer fails exactly for an index outside [0, count),
reporting the offending index and the valid range and leaving the output
unwritten; for an index in range it returns true and stores the cell
content of `buffer_offsets_[index]` through the out-parameter. -/
theorem getOffsetForBuffer_range_spec (s : GreedyMemoryPlanner) (index : Int) :
    ((index < 0 ∨ (s.requirements.length : Int) ≤ index) →
      getOffsetForBuffer s index =
        (false,
          ["buffer index " ++ toString index ++ " is outside range 0 to "
            ++ toString ((s.requirements.length : Int))],
          none, s)) ∧
    ((0 ≤ index ∧ index < (s.requirements.length : Int)) →
      getOffsetForBuffer s index =
        (true, [], some (readOffsetCell s.buffer_offsets index.toNat), s)) := by
  constructor
  · intro h
    rcases h with h | h
    · simp [getOffsetForBuffer, h]
    · have h2 : index ≥ (s.requirements.length : Int) := h
      simp [getOffsetForBuffer, h2]
  · rintro ⟨h1, h2⟩
    have h3 : ¬ (index < 0) := not_lt.mpr h1
    have h4 : ¬ (index ≥ (s.requirements.length : Int)) := not_le.mpr h2
    simp [getOffsetForBuffer, h3, h4]

/-- C6 witness: the failure branch at index 5 on the empty planner and the
success branch at index 0 on a one-buffer planner. -/
theorem getOffsetForBuffer_range_spec_witness :
    (((5 : Int) < 0 ∨ ((initPlanner.requirements.length : Int) ≤ 5)) ∧
      getOffsetForBuffer initPlanner 5 =
        (false,
          ["buffer index " ++ toString (5 : Int) ++ " is outside range 0 to "
            ++ toString ((initPlanner.requirements.length : Int))],
          none, initPlanner)) ∧
    (((0 : Int) ≤ 0 ∧
        (0 : Int) < (({ requirements := [⟨100, 0, 5⟩] } : GreedyMemoryPlanner).requirements.length : Int)) ∧
      getOffsetForBuffer ({ requirements := [⟨100, 0, 5⟩] } : GreedyMemoryPlanner) 0 =
        (true, [],
          some (readOffsetCell
            ({ requirements := [⟨100, 0, 5⟩] } : GreedyMemoryPlanner).buffer_offsets (0 : Int).toNat),
          { requirements := [⟨100, 0, 5⟩] })) :=
  ⟨⟨by decide, (getOffsetForBuffer_range_spec initPlanner 5).1 (by decide)⟩,
   ⟨by decide, (getOffsetForBuffer_range_spec _ 0).2 (by decide)⟩⟩

/-- C8: GetMaximumMemorySize called twice in succession returns equal
values, and running the layout-forcing recomputation on a planner whose
plan is already current leaves the whole state - in particular every
assigned offset - unchanged. -/
theorem getMaximumMemorySize_idempotent (s : GreedyMemoryPlanner) :
    (getMaximumMemorySize ((getMaximumMemorySize s).2)).1 = (getMaximumMemorySize s).1 ∧
    (s.need_to_calculate_offsets = false → calculateOffsetsIfNeeded s = s) := by
  constructor
  · rw [getMax_snd s, getMax_fst, getMax_fst, calculateOffsets_idem s]
  · exact fun h => calculateOffsets_clean h

/-- C8 witness: both parts at a concrete clean planner state. -/
theorem getMaximumMemorySize_idempotent_witness :
    ((getMaximumMemorySize
        ((getMaximumMemorySize ({ need_to_calculate_offsets := false } : GreedyMemoryPlanner)).2)).1 =
      (getMaximumMemorySize ({ need_to_calculate_offsets := false } : GreedyMemoryPlanner)).1) ∧
    (({ need_to_calculate_offsets := false } : GreedyMemoryPlanner).need_to_calculate_offsets = false ∧
      calculateOffsetsIfNeeded ({ need_to_calculate_offsets := false } : GreedyMemoryPlanner) =
        { need_to_calculate_offsets := false }) :=
  ⟨(getMaximumMemorySize_idempotent _).1,
   ⟨rfl, (getMaximumMemorySize_idempotent _).2 rfl⟩⟩

/-- C10: with no buffers added, PrintMemoryPlan emits exactly one
diagnostic line of exactly 80 dot characters (the time loop still runs
for t = 0). -/
theorem printMemoryPlan_empty (s : GreedyMemoryPlanner) (h : s.requirements = []) :
    (printMemoryPlan s).1 = [String.mk (List.replicate 80 '.')] := by
  have hcalc : calculateOffsetsIfNeeded s = s := by
    unfold calculateOffsetsIfNeeded
    simp [h]
  simp only [printMemoryPlan, hcalc, h]
  rfl

/-- C10 witness: the fresh planner. -/
theorem printMemoryPlan_empty_witness :
    (printMemoryPlan initPlanner).1 = [String.mk (List.replicate 80 '.')] :=
  printMemoryPlan_empty initPlanner rfl

/-- C1 (code bug): the batch (10,[0,1]), (5,[2,3]), (5,[0,3]) has only
positive sizes and well-formed intervals, yet the layout places buffer 2
at offset 5 - inside buffer 0, which occupies [0,10) - although the live
intervals [0,3] and [0,1] overlap in time: the gap scan measures gaps only
between consecutive temporally-conflicting list entries, so the final
end of the final candidate can fall inside an earlier conflicting buffer. -/
theorem layout_overlap_bug :
    (∀ r ∈ ([⟨10, 0, 1⟩, ⟨5, 2, 3⟩, ⟨5, 0, 3⟩] : List BufferRequirements),
      0 < r.size ∧ r.first_time_used ≤ r.last_time_used) ∧
    entryOffsetOf (calculateOffsetsIfNeeded
      (addAll [⟨10, 0, 1⟩, ⟨5, 2, 3⟩, ⟨5, 0, 3⟩])).buffers_sorted_by_offset 0 = 0 ∧
    entryOffsetOf (calculateOffsetsIfNeeded
      (addAll [⟨10, 0, 1⟩, ⟨5, 2, 3⟩, ⟨5, 0, 3⟩])).buffers_sorted_by_offset 2 = 5 ∧
    (getReq [⟨10, 0, 1⟩, ⟨5, 2, 3⟩, ⟨5, 0, 3⟩] 0).first_time_used ≤
      (getReq [⟨10, 0, 1⟩, ⟨5, 2, 3⟩, ⟨5, 0, 3⟩] 2).last_time_used ∧
    (getReq [⟨10, 0, 1⟩, ⟨5, 2, 3⟩, ⟨5, 0, 3⟩] 2).first_time_used ≤
      (getReq [⟨10, 0, 1⟩, ⟨5, 2, 3⟩, ⟨5, 0, 3⟩] 0).last_time_used ∧
    ¬ (entryOffsetOf (calculateOffsetsIfNeeded
          (addAll [⟨10, 0, 1⟩, ⟨5, 2, 3⟩, ⟨5, 0, 3⟩])).buffers_sorted_by_offset 0
        + (getReq [⟨10, 0, 1⟩, ⟨5, 2, 3⟩, ⟨5, 0, 3⟩] 0).size ≤
        entryOffsetOf (calculateOffsetsIfNeeded
          (addAll [⟨10, 0, 1⟩, ⟨5, 2, 3⟩, ⟨5, 0, 3⟩])).buffers_sorted_by_offset 2 ∨
       entryOffsetOf (calculateOffsetsIfNeeded
          (addAll [⟨10, 0, 1⟩, ⟨5, 2, 3⟩, ⟨5, 0, 3⟩])).buffers_sorted_by_offset 2
        + (getReq [⟨10, 0, 1⟩, ⟨5, 2, 3⟩, ⟨5, 0, 3⟩] 2).size ≤
        entryOffsetOf (calculateOffsetsIfNeeded
          (addAll [⟨10, 0, 1⟩, ⟨5, 2, 3⟩, ⟨5, 0, 3⟩])).buffers_sorted_by_offset 0) := by
  decide

/-- C7 counterexample: the batch (50,[0,1]), (80,[2,3]) satisfies the
hypotheses of the claim, yet walking the offset-ordered list after layout
yields the offsets [0, 0]: not strictly increasing, with a repeat. -/
theorem offsets_not_strictly_increasing :
    (∀ r ∈ ([⟨50, 0, 1⟩, ⟨80, 2, 3⟩] : List BufferRequirements),
      0 < r.size ∧ r.first_time_used ≤ r.last_time_used) ∧
    ((calculateOffsetsIfNeeded (addAll [⟨50, 0, 1⟩, ⟨80, 2, 3⟩])).buffers_sorted_by_offset.map
      ListEntry.offset = [0, 0]) ∧
    ¬ List.Sorted (fun a b : Int => a < b)
      ((calculateOffsetsIfNeeded (addAll [⟨50, 0, 1⟩, ⟨80, 2, 3⟩])).buffers_sorted_by_offset.map
        ListEntry.offset) := by
  decide

/-- C7 (amended): for every batch of added buffers with size > 0 and
first <= last, walking the offset-ordered placement list from the head
after a layout pass yields non-decreasing offsets (strict increase fails:
temporally disjoint buffers may share an offset). -/
theorem offsets_sorted (batch : List BufferRequirements)
    (hlen : batch.length ≤ kMaxBufferCount)
    (hgood : ∀ r ∈ batch, 0 < r.size ∧ r.first_time_used ≤ r.last_time_used) :
    List.Sorted entryLE
      ((calculateOffsetsIfNeeded (addAll batch)).buffers_sorted_by_offset) := by
  rw [addAll_eq batch hlen]
  by_cases hne : batch = []
  · subst hne
    simp [calculateOffsetsIfNeeded]
  · have hsz : ∀ r ∈ batch, 0 ≤ r.size := fun r hr => le_of_lt (hgood r hr).1
    rw [calculateOffsets_of_dirty rfl hne]
    rcases hs : sortIdsBySizeDesc batch (List.range batch.length) with _ | ⟨firstId, restIds⟩
    · exact absurd hs (sortIds_ne_nil hne)
    · exact (computeLayout_inv batch _ firstId restIds hs hsz).2.1

/-- C7 witness for the amended theorem: a concrete two-buffer batch. -/
theorem offsets_sorted_witness :
    (([⟨50, 0, 1⟩, ⟨80, 2, 3⟩] : List BufferRequirements).length ≤ kMaxBufferCount ∧
      ∀ r ∈ ([⟨50, 0, 1⟩, ⟨80, 2, 3⟩] : List BufferRequirements),
        0 < r.size ∧ r.first_time_used ≤ r.last_time_used) ∧
    List.Sorted entryLE
      ((calculateOffsetsIfNeeded (addAll [⟨50, 0, 1⟩, ⟨80, 2, 3⟩])).buffers_sorted_by_offset) :=
  ⟨⟨by decide, by decide⟩, offsets_sorted _ (by decide) (by decide)⟩

/-- C9: whenever at least one buffer has been added (within capacity),
GetMaximumMemorySize returns a value at least the size of every added
buffer: the largest buffer is seeded at offset 0 at the head of the
placement list, so the walk sees offset 0 plus the maximal size. -/
theorem getMaximumMemorySize_ge_sizes (batch : List BufferRequirements)
    (hne : batch ≠ []) (hlen : batch.length ≤ kMaxBufferCount) :
    ∀ r ∈ batch, r.size ≤ (getMaximumMemorySize (addAll batch)).1 := by
  intro r hr
  rw [addAll_eq batch hlen, getMax_fst]
  rw [calculateOffsets_of_dirty rfl hne]
  have hlen0 : batch.length ≠ 0 := by simpa using hne
  simp only [hlen0, beq_iff_eq, if_neg]
  rcases hs : sortIdsBySizeDesc batch (List.range batch.length) with _ | ⟨firstId, restIds⟩
  · exact absurd hs (sortIds_ne_nil hne)
  · obtain ⟨t, ht⟩ := computeLayout_head batch
      (({ requirements := batch, buffer_offsets := [], buffers_sorted_by_offset := [],
          need_to_calculate_offsets := true } : GreedyMemoryPlanner).buffer_offsets) hs
    have hseed : (⟨0, firstId⟩ : ListEntry) ∈ (computeLayout batch
        (({ requirements := batch, buffer_offsets := [], buffers_sorted_by_offset := [],
            need_to_calculate_offsets := true } : GreedyMemoryPlanner).buffer_offsets)).1 := by
      rw [ht]
      exact List.mem_cons_self _ _
    have hwalk := contribution_le_walkMaxSize batch _ 0 _ hseed
    have hcontrib : contribution batch (⟨0, firstId⟩ : ListEntry) =
        (getReq batch firstId).size := by
      simp [contribution]
    obtain ⟨j, hj, hget⟩ := List.mem_iff_getElem.mp hr
    have hgetD : getReq batch j = r := by
      unfold getReq
      rw [List.getD_eq_getElem batch default hj, hget]
    have hmax := sortIds_head_max batch hs j (List.mem_range.mpr hj)
    rw [hgetD] at hmax
    rw [hcontrib] at hwalk
    exact le_trans hmax hwalk

/-- C9 witness: a concrete one-buffer batch. -/
theorem getMaximumMemorySize_ge_sizes_witness :
    (([⟨100, 0, 5⟩] : List BufferRequirements) ≠ [] ∧
      ([⟨100, 0, 5⟩] : List BufferRequirements).length ≤ kMaxBufferCount) ∧
    ∀ r ∈ ([⟨100, 0, 5⟩] : List BufferRequirements),
      r.size ≤ (getMaximumMemorySize (addAll [⟨100, 0, 5⟩])).1 :=
  ⟨⟨by decide, by decide⟩, getMaximumMemorySize_ge_sizes _ (by decide) (by decide)⟩

/-- C4: GetMaximumMemorySize returns 0 when no buffers have been added;
otherwise (the layout recomputed first, the planner being dirty after the
adds) it returns exactly the maximum over all added buffers of the
assigned offset plus the size, the offsets read off the placement list,
which holds every added buffer exactly once. -/
theorem getMaximumMemorySize_spec :
    (∀ s : GreedyMemoryPlanner, s.requirements = [] → (getMaximumMemorySize s).1 = 0) ∧
    (∀ batch : List BufferRequirements, batch ≠ [] → batch.length ≤ kMaxBufferCount →
      (∀ r ∈ batch, 0 ≤ r.size) →
      (getMaximumMemorySize (addAll batch)).1 =
        ((List.range batch.length).map (fun i =>
          entryOffsetOf
            (calculateOffsetsIfNeeded (addAll batch)).buffers_sorted_by_offset i
            + (getReq batch i).size)).foldr max 0) := by
  constructor
  · intro s h
    rw [getMax_fst]
    have h0 : (calculateOffsetsIfNeeded s).requirements.length = 0 := by
      rw [calculateOffsets_requirements, h]
      rfl
    simp [h0]
  · intro batch hne hlen hsz
    rw [addAll_eq batch hlen, getMax_fst]
    rw [calculateOffsets_of_dirty rfl hne]
    have hlen0 : batch.length ≠ 0 := by simpa using hne
    simp only [hlen0, beq_iff_eq, if_neg]
    have hwalk := walkMaxSize_eq_foldr batch
      (computeLayout batch []).1 0
    have hfoldmap : ((computeLayout batch []).1.map (contribution batch)).foldr max 0 =
        (computeLayout batch []).1.foldr (fun e m => max (contribution batch e) m) 0 :=
      List.foldr_map (contribution batch) max (computeLayout batch []).1 0
    have hperm := computeLayout_ids_perm batch [] hne
    have hnd : ((computeLayout batch []).1.map ListEntry.requirements_index).Nodup :=
      hperm.nodup_iff.mpr (List.nodup_range batch.length)
    have hmapperm : List.Perm
        ((List.range batch.length).map (fun i =>
          entryOffsetOf (computeLayout batch []).1 i + (getReq batch i).size))
        ((computeLayout batch []).1.map (contribution batch)) := by
      have h1 := (hperm.symm).map (fun i =>
        entryOffsetOf (computeLayout batch []).1 i + (getReq batch i).size)
      refine h1.trans ?_
      rw [List.map_map]
      have h2 : ∀ e ∈ (computeLayout batch []).1,
          ((fun i => entryOffsetOf (computeLayout batch []).1 i + (getReq batch i).size) ∘
            ListEntry.requirements_index) e = contribution batch e := by
        intro e he
        show entryOffsetOf (computeLayout batch []).1 e.requirements_index
          + (getReq batch e.requirements_index).size = contribution batch e
        rw [entryOffsetOf_eq hnd he]
        rfl
      rw [List.map_congr_left h2]
    have hfold := @List.Perm.foldr_eq Int Int max _ _
      ⟨fun a b c => max_left_comm a b c⟩ hmapperm 0
    rw [hfold, hfoldmap, ← hwalk]
    simp

/-- C4 witness: the empty planner and a concrete one-buffer batch. -/
theorem getMaximumMemorySize_spec_witness :
    (initPlanner.requirements = [] ∧ (getMaximumMemorySize initPlanner).1 = 0) ∧
    ((([⟨100, 0, 5⟩] : List BufferRequirements) ≠ [] ∧
        ([⟨100, 0, 5⟩] : List BufferRequirements).length ≤ kMaxBufferCount ∧
        ∀ r ∈ ([⟨100, 0, 5⟩] : List BufferRequirements), 0 ≤ r.size) ∧
      (getMaximumMemorySize (addAll [⟨100, 0, 5⟩])).1 =
        ((List.range ([⟨100, 0, 5⟩] : List BufferRequirements).length).map (fun i =>
          entryOffsetOf
            (calculateOffsetsIfNeeded (addAll [⟨100, 0, 5⟩])).buffers_sorted_by_offset i
            + (getReq [⟨100, 0, 5⟩] i).size)).foldr max 0) :=
  ⟨⟨rfl, getMaximumMemorySize_spec.1 initPlanner rfl⟩,
   ⟨⟨by decide, by decide, by decide⟩,
    getMaximumMemorySize_spec.2 _ (by decide) (by decide) (by decide)⟩⟩

end Tflite
